import Mathlib

/-!
Verification of the plex-edition-manager batch synchronization engine
(`edition-manager.py`) and its web task orchestrator (`edition-manager-gui.py`).

The Python sources are shallowly embedded below: dictionaries become
structures with `Option` fields (Python `dict.get` defaults are modelled
explicitly), Python's falsy-`or` is modelled by `orFalsyNat`, the progress
percent arithmetic (Python floats) is modelled over `ℚ`, mutable module
state is passed explicitly, and fallible per-item processing is an
`Except String Unit` parameter.
-/

namespace PlexEM

/-! ### Data model: movies as fetched from the library (JSON dictionaries) -/

/-- One media part dictionary: `{'size': ..., 'file': ...}`; `size` is
`Option` because the code reads it with `part.get('size', 0)`. -/
structure MediaPart where
  size : Option Nat
  file : String
deriving DecidableEq

/-- One media entry: `{'Part': [...]}`; the code reads it with
`media[0].get('Part') or []`, so a missing list is already the empty list. -/
structure MediaEntry where
  parts : List MediaPart
deriving DecidableEq

/-- A movie summary dictionary as returned by the library listing. -/
structure Movie where
  ratingKey : Option String
  title : Option String
  updatedAt : Option Nat
  addedAt : Option Nat
  duration : Option Nat
  media : List MediaEntry
deriving DecidableEq

/-- Python `a or b` for an optional number: `None` and `0` are falsy. -/
def orFalsyNat (a : Option Nat) (b : Nat) : Nat :=
  match a with
  | none => b
  | some n => if n = 0 then b else n

/-- The effective timestamp: `movie.get('updatedAt') or movie.get('addedAt') or 0`. -/
def movieUpdated (m : Movie) : Nat :=
  orFalsyNat m.updatedAt (orFalsyNat m.addedAt 0)

/-- The effective duration: `movie.get('duration') or 0`. -/
def movieDuration (m : Movie) : Nat :=
  orFalsyNat m.duration 0

/-- The size used by the signature: the size of the FIRST part of the FIRST
media entry (`media[0]['Part'][0].get('size', 0)`), 0 when absent. -/
def movieFirstSize (m : Movie) : Nat :=
  match m.media with
  | [] => 0
  | e :: _ =>
    match e.parts with
    | [] => 0
    | p :: _ => p.size.getD 0

/-- `_movie_signature` from `edition-manager.py`: the f-string
`f"{updated}-{duration}-{size}"`. -/
def _movie_signature (m : Movie) : String :=
  toString (movieUpdated m) ++ "-" ++ toString (movieDuration m) ++ "-"
    ++ toString (movieFirstSize m)

/-- What the spec calls "the size of its largest media part".
Modelled from the spec: the maximum byte size over all of the item's media
parts (the code does not compute this for the signature). -/
def spec_largestPartSize (m : Movie) : Nat :=
  ((m.media.map MediaEntry.parts).flatten).foldl (fun acc p => max acc (p.size.getD 0)) 0

/-! ### ChangeCache: `_progress_cache`, `should_skip_movie`, `mark_movie_processed` -/

/-- A cache entry `{'signature': ..., 'title': ...}`; `signature` is `Option`
because the code reads it with `entry.get('signature')` (a JSON entry could
lack the key). -/
structure CacheEntry where
  signature : Option String
  title : String
deriving DecidableEq

/-- The progress cache, modelled by its dictionary lookup semantics. -/
def Cache : Type := String → Option CacheEntry

/-- Python dict assignment `cache[key] = v`. -/
def cacheSet (c : Cache) (key : String) (v : CacheEntry) : Cache :=
  fun k => if k = key then some v else c k

/-- The item key: `str(movie.get('ratingKey') or '')` (falsy values give `''`). -/
def movieKey (m : Movie) : String :=
  m.ratingKey.getD ""

/-- `should_skip_movie`: true iff the key is non-empty and the cached entry's
signature equals the current signature. -/
def should_skip_movie (cache : Cache) (m : Movie) : Bool :=
  let key := movieKey m
  if key = "" then false
  else
    let signature := _movie_signature m
    match cache key with
    | none => false
    | some entry => decide (entry.signature = some signature)

/-- `mark_movie_processed`: upsert `{signature, title}` under the item key and
bump the dirty counter, unless the key is empty or an entry with the same
signature already exists. Returns the new cache and dirty counter. -/
def mark_movie_processed (cache : Cache) (dirty : Nat) (m : Movie) : Cache × Nat :=
  let key := movieKey m
  if key = "" then (cache, dirty)
  else
    let signature := _movie_signature m
    if signature = "" then (cache, dirty)
    else
      match cache key with
      | some existing =>
        if existing.signature = some signature then (cache, dirty)
        else (cacheSet cache key ⟨some signature, m.title.getD ""⟩, dirty + 1)
      | none => (cacheSet cache key ⟨some signature, m.title.getD ""⟩, dirty + 1)

/-! ### ProgressReporter: `_progress_set_total`, `_progress_step`

The Python module keeps `_progress_total`, `_progress_done` and
`_progress_last_emit` as module globals (floats for the last emitted
percent); here they are one explicit state record, percent arithmetic over
`ℚ`.  An emission (`_emit_progress`) is modelled as the optional emitted
percent value. -/

structure ProgState where
  total : Nat
  done : Nat
  lastEmit : ℚ
deriving DecidableEq

/-- `_progress_set_total(n)`: `total = max(1, n)`, `done = 0`,
`last_emit = -1.0`, and an immediate emission of `0.0` (which does NOT update
`last_emit`). Returns the state and the emitted percent. -/
def _progress_set_total (n : Nat) : ProgState × ℚ :=
  (⟨max 1 n, 0, -1⟩, 0)

/-- `_progress_step(k)`: `done = min(total, done + k)`,
`pct = done * 100 / total`, `min_delta = max(0.1, 100 / max(1, total))`, emit
iff `last_emit < 0 or pct >= 100 or pct - last_emit >= min_delta`; on
emission `last_emit = pct` and the line carries `min(100.0, max(0.0, pct))`.
Returns the state and the optional emitted percent. -/
def _progress_step (s : ProgState) (k : Nat) : ProgState × Option ℚ :=
  let done' := min s.total (s.done + k)
  let pct : ℚ := (done' * 100 : ℚ) / (s.total : ℚ)
  let minDelta : ℚ := max (1/10) ((100 : ℚ) / (max 1 s.total : ℕ))
  let shouldEmit := s.lastEmit < 0 ∨ 100 ≤ pct ∨ minDelta ≤ pct - s.lastEmit
  (⟨s.total, done', if shouldEmit then pct else s.lastEmit⟩,
   if shouldEmit then some (min 100 (max 0 pct)) else none)

/-- A sequence of `_progress_step` calls, collecting the emitted percents in
order. -/
def stepsEmits (s : ProgState) : List Nat → ProgState × List ℚ
  | [] => (s, [])
  | k :: ks =>
    let (s', e) := _progress_step s k
    let (s'', es) := stepsEmits s' ks
    (s'', e.toList ++ es)

/-- One progress run: `_progress_set_total n` followed by the given step
calls; the emitted-percent trace includes the initial `0.0` emission. -/
def progressRun (n : Nat) (ks : List Nat) : ProgState × List ℚ :=
  let (s0, e0) := _progress_set_total n
  let (s', es) := stepsEmits s0 ks
  (s', e0 :: es)

/-! ### TagPipeline gather phase and `update_movie` (write phase) -/

/-- The module names handled by the `if/elif` chain of
`process_single_movie`. -/
def knownModules : List String :=
  ["Resolution", "Duration", "Rating", "Cut", "Release", "DynamicRange",
   "Country", "ContentRating", "Language", "AudioChannels", "Director",
   "Genre", "SpecialFeatures", "Studio", "AudioCodec", "Bitrate",
   "FrameRate", "Size", "Source", "VideoCodec"]

/-- The gather phase of `process_single_movie`: iterate the configured module
order; each known module's provider (`get_Resolution`, `get_Rating`, ...) is
abstracted as `providers : String → Option String` (a provider that raises or
returns a falsy value contributes no tag). -/
def gatherTags (modules : List String) (providers : String → Option String) :
    List String :=
  modules.foldl
    (fun tags module =>
      if module ∈ knownModules then
        match providers module with
        | some t => if t = "" then tags else tags ++ [t]
        | none => tags
      else tags)
    []

/-- `list(dict.fromkeys(tags))`: deduplicate preserving first-seen order. -/
def dedupTags (tags : List String) : List String :=
  tags.foldl (fun acc t => if t ∈ acc then acc else acc ++ [t]) []

/-- `tag.replace('.', '').isdigit()`: dots removed, the rest non-empty and all
digits. -/
def isNumericTag (tag : String) : Bool :=
  let stripped := tag.data.filter (fun c => c ≠ '.')
  !stripped.isEmpty && stripped.all Char.isDigit

/-- The observable outcome of `update_movie`: the unconditional clear always
happens; `edition` is the locked edition title written by the second PUT (if
any) and `rating` the locked rating value added to it (if any). -/
structure UpdateOutcome where
  edition : Option String
  rating : Option String
deriving DecidableEq

/-- `update_movie` (write phase): clear, dedup, then if tags remain write the
`' · '`-joined label, adding the first purely-numeric tag as the rating value
whenever `'Rating' in modules` and such a tag exists. -/
def update_movie (tags modules : List String) : UpdateOutcome :=
  let tags := dedupTags tags
  if tags.isEmpty then
    { edition := none, rating := none }
  else
    { edition := some (String.intercalate " · " tags)
      rating :=
        if "Rating" ∈ modules ∧ tags.any isNumericTag = true then
          tags.find? isNumericTag
        else none }

/-! ### BatchCoordinator: the batch loop of `process_movies`

Per-item processing (`process_single_movie`) is abstracted as
`outcome : Movie → Except String Unit`; `.error e` models the call raising an
exception with message `e`.  The live loop submits `process_single_movie`
directly to the executor and never retrieves `future.result()`, so a stored
exception is dropped silently; `process_movies_batch` (defined in the source
but never called) is the variant that catches and logs per-item failures. -/

/-- `pending_movies[i:i+batch_size]` chunking of `range(0, len, batch_size)`;
fuelled by the list length (Python raises for `batch_size = 0`, so the model
is meaningful for a batch size of at least 1). -/
def chunksGo (bs : Nat) : Nat → List Movie → List (List Movie)
  | _, [] => []
  | 0, _ => []
  | fuel + 1, l => l.take bs :: chunksGo bs fuel (l.drop bs)

/-- The contiguous batches of the pending list. -/
def pyBatches (bs : Nat) (l : List Movie) : List (List Movie) :=
  chunksGo bs l.length l

/-- One batch of the live loop: submit every movie, then call
`_progress_step()` once per completed future.  The futures' stored results
(including exceptions) are recorded but never inspected, and nothing is
logged about them. -/
def runBatchLive (outcome : Movie → Except String Unit) (batch : List Movie)
    (s : ProgState) : ProgState × List ℚ × List (Except String Unit) :=
  batch.foldl
    (fun acc m =>
      let (s', e) := _progress_step acc.1 1
      (s', acc.2.1 ++ e.toList, acc.2.2 ++ [outcome m]))
    (s, [], [])

/-- The batch loop of `process_movies` after `_progress_set_total`: drain each
batch fully, count one progress unit per completed future, and log one
`Processed batch i/n` info line per batch.  Returns the final progress state,
the emitted percents, the log lines, and every item's recorded outcome. -/
def process_movies_loop (outcome : Movie → Except String Unit) (batchSize : Nat)
    (pending : List Movie) (s : ProgState) :
    ProgState × List ℚ × List String × List (Except String Unit) :=
  let nb := (pending.length + batchSize - 1) / batchSize
  (pyBatches batchSize pending).enum.foldl
    (fun acc ib =>
      let (s', es, rs) := runBatchLive outcome ib.2 acc.1
      (s', acc.2.1 ++ es,
       acc.2.2.1 ++ ["Processed batch " ++ toString (ib.1 + 1) ++ "/" ++ toString nb],
       acc.2.2.2 ++ rs))
    (s, [], [], [])

/-- `process_movies_batch` from the source (never called by `process_movies`):
per movie, a raised exception is caught and logged with the movie's title.
Returns the error log lines. -/
def process_movies_batch (outcome : Movie → Except String Unit)
    (batch : List Movie) : List String :=
  batch.foldl
    (fun logs m =>
      match outcome m with
      | .ok _ => logs
      | .error e =>
        logs ++ ["Error processing movie " ++ m.title.getD "Unknown" ++ ": " ++ e])
    []

/-! ### TaskOrchestrator: `TaskRunner` from `edition-manager-gui.py`

The mutable runner object becomes an explicit state record; wall-clock
timestamps are passed in as opaque strings; Python's `float(...)`/`int(...)`
parsers in the output reader are abstract parameters. -/

/-- `LOG_LIMIT = 1500`: the bound of the log ring buffer. -/
def LOG_LIMIT : Nat := 1500

/-- The orchestrator's visible state (`_logs`, `_progress`,
`_progress_counts`, `_current_flag`, `_running`, `_exit_code`,
`_started_at`). -/
structure RunnerState where
  logs : List String
  progress : ℚ
  progressCounts : Int × Int
  currentFlag : Option String
  running : Bool
  exitCode : Option Int
  startedAt : Option String
deriving DecidableEq

/-- `deque(maxlen=LOG_LIMIT)` append: keep only the most recent
`LOG_LIMIT` entries (FIFO eviction of the oldest). -/
def dequeAppend (logs : List String) (entry : String) : List String :=
  let l := logs ++ [entry]
  if LOG_LIMIT < l.length then l.drop (l.length - LOG_LIMIT) else l

/-- `_append_log`: prepend a `[HH:MM:SS]` stamp and push onto the bounded
deque. -/
@[reducible] def _append_log (s : RunnerState) (stamp message : String) : RunnerState :=
  { s with logs := dequeAppend s.logs ("[" ++ stamp ++ "] " ++ message) }

/-- `TaskRunner.start`: under the lock, fail with the conflict error if a run
is already running, otherwise reset the status and mark running.  The error
case is the `RuntimeError("Another operation is already running.")`; the
state component of the result is the state after the call. -/
def TaskRunner.start (s : RunnerState) (flag : String) (now : String) :
    RunnerState × Option String :=
  if s.running then
    (s, some "Another operation is already running.")
  else
    ({ logs := [], progress := 0, progressCounts := (0, 0),
       currentFlag := some flag, running := true, exitCode := none,
       startedAt := some now }, none)

/-- Python `str(exit_code)` for an `Optional[int]`. -/
def optIntStr : Option Int → String
  | none => "None"
  | some n => toString n

/-- `TaskRunner._finish`: append the terminal log line, clear `running`,
force progress to 100 on exit code 0, and record the exit code and flag. -/
def TaskRunner._finish (s : RunnerState) (flag : String) (ec : Option Int)
    (stamp : String) : RunnerState :=
  let s :=
    _append_log s stamp
      (if ec = some 0 then "Job completed successfully."
       else "Job finished with exit code " ++ optIntStr ec ++ ".")
  { s with running := false,
           progress := if ec = some 0 then 100 else s.progress,
           exitCode := ec,
           currentFlag := some flag }

/-- Python `line.split()`: split on whitespace runs, dropping empty pieces. -/
def splitWs (s : String) : List String :=
  (s.split Char.isWhitespace).filter (fun w => w ≠ "")

/-- `TaskRunner._handle_output`: append every line to the log; for a
`PROGRESS ` line, try to parse the percent (field 1) and the done/total
counts (fields 2 and 3); an unparsable percent leaves the snapshot untouched,
a parsed percent is clamped into `[0, 100]`; the counts are stored only when
both parse. -/
def TaskRunner._handle_output (s : RunnerState) (stamp line : String)
    (parseFloat : String → Option ℚ) (parseInt : String → Option Int) :
    RunnerState :=
  let s := _append_log s stamp line
  if line.startsWith "PROGRESS " then
    match ((splitWs line)[1]?).bind parseFloat with
    | none => s
    | some pct =>
      { s with progress := max 0 (min 100 pct),
               progressCounts :=
                 (match ((splitWs line)[2]?).bind parseInt,
                     ((splitWs line)[3]?).bind parseInt with
                  | some d, some t => some (d, t)
                  | _, _ => none).getD s.progressCounts }
  else s

/-! ### Decimal-representation lemmas

`_movie_signature` joins three decimal numerals with `'-'`; since decimal
numerals contain only digit characters and never `'-'`, the signature string
determines the three numbers.  The lemmas below establish this for the
`Nat.repr` used by `toString`. -/

/-- The numeric value of a character, `c - '0'`. -/
def chVal (c : Char) : Nat := c.toNat - 48

/-- The value of a big-endian list of decimal digit characters. -/
def digitsVal (l : List Char) : Nat :=
  l.foldl (fun a c => a * 10 + chVal c) 0

theorem digitsVal_append_singleton (l : List Char) (c : Char) :
    digitsVal (l ++ [c]) = digitsVal l * 10 + chVal c := by
  simp [digitsVal, List.foldl_append]

theorem digitChar_isDigit {n : Nat} (h : n < 10) :
    (Nat.digitChar n).isDigit = true := by
  interval_cases n <;> decide

theorem chVal_digitChar {n : Nat} (h : n < 10) :
    chVal (Nat.digitChar n) = n := by
  interval_cases n <;> decide

theorem toDigitsCore_shift (fuel n : Nat) (acc : List Char) :
    Nat.toDigitsCore 10 fuel n acc = Nat.toDigitsCore 10 fuel n [] ++ acc := by
  induction fuel generalizing n acc with
  | zero => simp [Nat.toDigitsCore]
  | succ f ih =>
    simp only [Nat.toDigitsCore]
    by_cases h : n / 10 = 0
    · simp [h]
    · simp only [h, if_neg, ite_false]
      rw [ih (n / 10) (Nat.digitChar (n % 10) :: acc),
        ih (n / 10) [Nat.digitChar (n % 10)]]
      simp

theorem toDigitsCore_isDigit (fuel n : Nat) :
    ∀ c ∈ Nat.toDigitsCore 10 fuel n [], c.isDigit = true := by
  induction fuel generalizing n with
  | zero => simp [Nat.toDigitsCore]
  | succ f ih =>
    intro c hc
    simp only [Nat.toDigitsCore] at hc
    by_cases h : n / 10 = 0
    · simp only [h, ite_true, List.mem_singleton] at hc
      subst hc
      exact digitChar_isDigit (Nat.mod_lt n (by decide))
    · simp only [h, ite_false] at hc
      rw [toDigitsCore_shift] at hc
      rcases List.mem_append.mp hc with h' | h'
      · exact ih (n / 10) c h'
      · rw [List.mem_singleton] at h'
        subst h'
        exact digitChar_isDigit (Nat.mod_lt n (by decide))

theorem toDigitsCore_digitsVal :
    ∀ fuel n : Nat, n < fuel →
      digitsVal (Nat.toDigitsCore 10 fuel n []) = n := by
  intro fuel
  induction fuel with
  | zero => omega
  | succ f ih =>
    intro n hn
    simp only [Nat.toDigitsCore]
    by_cases h : n / 10 = 0
    · have hlt : n < 10 := by omega
      simp only [h, ite_true]
      simp [digitsVal, Nat.mod_eq_of_lt hlt, chVal_digitChar hlt]
    · have hpos : 0 < n := by
        rcases Nat.eq_zero_or_pos n with h0 | h0
        · subst h0; simp at h
        · exact h0
      have hdiv : n / 10 < n := Nat.div_lt_self hpos (by decide)
      simp only [h, ite_false]
      rw [toDigitsCore_shift, digitsVal_append_singleton,
        ih (n / 10) (by omega), chVal_digitChar (Nat.mod_lt n (by decide))]
      omega

theorem nat_repr_data (n : Nat) :
    (Nat.repr n).data = Nat.toDigitsCore 10 (n + 1) n [] := rfl

theorem nat_repr_data_inj {m n : Nat}
    (h : (Nat.repr m).data = (Nat.repr n).data) : m = n := by
  have hm := toDigitsCore_digitsVal (m + 1) m (Nat.lt_succ_self m)
  have hn := toDigitsCore_digitsVal (n + 1) n (Nat.lt_succ_self n)
  rw [← nat_repr_data] at hm hn
  rw [← hm, ← hn, h]

theorem nat_repr_isDigit (n : Nat) :
    ∀ c ∈ (Nat.repr n).data, c.isDigit = true := by
  rw [nat_repr_data]
  exact toDigitsCore_isDigit (n + 1) n

theorem string_data_append (a b : String) :
    (a ++ b).data = a.data ++ b.data := rfl

theorem toString_nat (n : Nat) : toString n = Nat.repr n := rfl

/-- Splitting a digit-list / dash / remainder concatenation is unambiguous. -/
theorem digits_dash_split :
    ∀ (a₁ r₁ a₂ r₂ : List Char),
      (∀ c ∈ a₁, c.isDigit = true) → (∀ c ∈ a₂, c.isDigit = true) →
      a₁ ++ '-' :: r₁ = a₂ ++ '-' :: r₂ → a₁ = a₂ ∧ r₁ = r₂ := by
  intro a₁
  induction a₁ with
  | nil =>
    intro r₁ a₂ r₂ _ h₂ heq
    cases a₂ with
    | nil => simpa using heq
    | cons c cs =>
      exfalso
      have hc : c = '-' := by
        have := congrArg List.head? heq
        simpa using this.symm
      have := h₂ c (List.mem_cons_self c cs)
      rw [hc] at this
      exact absurd this (by decide)
  | cons c cs ih =>
    intro r₁ a₂ r₂ h₁ h₂ heq
    cases a₂ with
    | nil =>
      exfalso
      have hc : c = '-' := by
        have := congrArg List.head? heq
        simpa using this
      have := h₁ c (List.mem_cons_self c cs)
      rw [hc] at this
      exact absurd this (by decide)
    | cons c' cs' =>
      simp only [List.cons_append, List.cons.injEq] at heq
      obtain ⟨hc, htail⟩ := heq
      obtain ⟨h1, h2⟩ := ih r₁ cs' r₂
        (fun x hx => h₁ x (List.mem_cons_of_mem c hx))
        (fun x hx => h₂ x (List.mem_cons_of_mem c' hx)) htail
      exact ⟨by rw [hc, h1], h2⟩

theorem signature_data (m : Movie) :
    (_movie_signature m).data =
      (Nat.repr (movieUpdated m)).data ++
        '-' :: ((Nat.repr (movieDuration m)).data ++
          '-' :: (Nat.repr (movieFirstSize m)).data) := by
  show (toString (movieUpdated m) ++ "-" ++ toString (movieDuration m) ++ "-"
      ++ toString (movieFirstSize m)).data = _
  simp only [string_data_append, toString_nat]
  simp [List.append_assoc]

/-- The signature string determines the three numbers it was built from. -/
theorem signature_inj {m₁ m₂ : Movie}
    (h : _movie_signature m₁ = _movie_signature m₂) :
    movieUpdated m₁ = movieUpdated m₂ ∧ movieDuration m₁ = movieDuration m₂ ∧
      movieFirstSize m₁ = movieFirstSize m₂ := by
  have hd := congrArg String.data h
  rw [signature_data, signature_data] at hd
  obtain ⟨h1, hrest⟩ :=
    digits_dash_split _ _ _ _ (nat_repr_isDigit _) (nat_repr_isDigit _) hd
  obtain ⟨h2, h3⟩ :=
    digits_dash_split _ _ _ _ (nat_repr_isDigit _) (nat_repr_isDigit _) hrest
  exact ⟨nat_repr_data_inj h1, nat_repr_data_inj h2, nat_repr_data_inj h3⟩

/-! ### Claim C1: the change signature -/

/-- A movie with two media parts, the first of size 5 and the largest of
size 10. -/
def c1m1 : Movie :=
  ⟨some "7", some "X", some 1, some 2, some 3,
    [⟨[⟨some 5, "a"⟩, ⟨some 10, "b"⟩]⟩]⟩

/-- `c1m1` after an edit enlarging its largest part to size 11. -/
def c1m2 : Movie :=
  ⟨some "7", some "X", some 1, some 2, some 3,
    [⟨[⟨some 5, "a"⟩, ⟨some 11, "b"⟩]⟩]⟩

/-- A movie with `updatedAt` set and `addedAt = 1`. -/
def c1m3 : Movie := ⟨some "7", some "X", some 5, some 1, some 3, []⟩

/-- `c1m3` after an edit of its `addedAt` timestamp to 2. -/
def c1m4 : Movie := ⟨some "7", some "X", some 5, some 2, some 3, []⟩

/-- C1, counterexample: an edit that changes the size of the item's largest
media part (10 → 11 bytes) leaves `_movie_signature` unchanged, because the
code reads the size of the FIRST part, not the largest; likewise an edit to
the `addedAt` timestamp while `updatedAt` is set leaves it unchanged.  So the
signature is not a function of the largest-part size, and not every edit to
timestamps or file sizes changes it. -/
theorem c1_counterexample :
    (_movie_signature c1m1 = _movie_signature c1m2 ∧
      spec_largestPartSize c1m1 ≠ spec_largestPartSize c1m2) ∧
    (_movie_signature c1m3 = _movie_signature c1m4 ∧
      c1m3.addedAt ≠ c1m4.addedAt) := by
  decide

/-- C1, amended: the change signature is a function of exactly the item's
effective timestamp (`updatedAt`, falling back to `addedAt` when `updatedAt`
is missing or zero), its duration, and the size of the first part of its
first media entry; two fetches of the same unmodified item yield equal
signatures, and any edit changing one of those three derived values yields a
different signature. -/
theorem c1_signature_amended (m₁ m₂ : Movie) :
    _movie_signature m₁ = _movie_signature m₂ ↔
      (movieUpdated m₁ = movieUpdated m₂ ∧
        movieDuration m₁ = movieDuration m₂ ∧
        movieFirstSize m₁ = movieFirstSize m₂) := by
  constructor
  · exact signature_inj
  · rintro ⟨h1, h2, h3⟩
    unfold _movie_signature
    rw [h1, h2, h3]

/-! ### Claims C4 and C5: `should_skip_movie` and `mark_movie_processed` -/

/-- The empty cache (missing or unparsable storage). -/
def emptyCache : Cache := fun _ => none

/-- A cache holding an entry under the empty-string key. -/
def c4cache : Cache :=
  fun k => if k = "" then some ⟨some "0-0-0", "t"⟩ else none

/-- A movie without a `ratingKey` (its key is the empty string). -/
def c4movie : Movie := ⟨none, none, none, none, none, []⟩

/-- C4, counterexample: a stored entry exists under this item's key and its
signature equals the item's current signature, yet `should_skip_movie`
returns false, because the code refuses to skip any item whose key is the
empty string. -/
theorem c4_counterexample :
    c4cache (movieKey c4movie) = some ⟨some (_movie_signature c4movie), "t"⟩ ∧
    should_skip_movie c4cache c4movie = false := by
  decide

/-- C4, amended: `should_skip_movie` returns true iff the item's key is
non-empty AND a stored entry exists under it whose signature equals the
item's current signature; with no stored entry, a mismatched signature, or an
empty key it returns false. -/
theorem c4_skip_iff (cache : Cache) (m : Movie) :
    should_skip_movie cache m = true ↔
      (movieKey m ≠ "" ∧ ∃ e, cache (movieKey m) = some e ∧
        e.signature = some (_movie_signature m)) := by
  unfold should_skip_movie
  by_cases hk : movieKey m = ""
  · simp [hk]
  · cases hc : cache (movieKey m) with
    | none => simp [hk, hc]
    | some e => simp [hk, hc]

/-- A movie without a `ratingKey` but with a title. -/
def c5movie : Movie := ⟨none, some "t", none, none, none, []⟩

/-- C5, counterexample: for an item whose key is empty,
`mark_movie_processed` is a no-op, so `should_skip_movie` immediately
afterwards still returns false. -/
theorem c5_counterexample :
    should_skip_movie (mark_movie_processed emptyCache 0 c5movie).1 c5movie
      = false := by
  decide

theorem signature_ne_empty (m : Movie) : _movie_signature m ≠ "" := by
  intro h
  have := congrArg String.data h
  rw [signature_data] at this
  have hlen := congrArg List.length this
  simp at hlen

/-- C5, amended: for every item with a non-empty key, `mark_movie_processed`
followed immediately by `should_skip_movie` on the same unchanged item
returns true. -/
theorem c5_mark_then_skip (cache : Cache) (dirty : Nat) (m : Movie)
    (h : movieKey m ≠ "") :
    should_skip_movie (mark_movie_processed cache dirty m).1 m = true := by
  unfold mark_movie_processed
  simp only [h, if_neg, ite_false, signature_ne_empty m]
  cases hc : cache (movieKey m) with
  | none =>
    simp only [should_skip_movie, h, ite_false, cacheSet]
    simp
  | some e =>
    by_cases he : e.signature = some (_movie_signature m)
    · simp only [he, ite_true]
      simp only [should_skip_movie, h, ite_false, hc]
      simp [he]
    · simp only [he, ite_false]
      simp only [should_skip_movie, h, ite_false, cacheSet]
      simp

/-- A movie with a non-empty key, as marked and then skipped in the
witness. -/
def c5wMovie : Movie := ⟨some "100", some "T", some 1, some 2, some 3, []⟩

/-- C5, witness: marking a concrete keyed movie in the empty cache and then
asking to skip it returns true. -/
theorem c5_mark_then_skip_witness :
    should_skip_movie (mark_movie_processed emptyCache 0 c5wMovie).1 c5wMovie
      = true :=
  c5_mark_then_skip emptyCache 0 c5wMovie (by decide)

/-! ### Claim C2: when the rating value is written -/

/-- A module order containing the Rating provider and one other provider. -/
def c2modules : List String := ["Rating", "Studio"]

/-- Providers for the counterexample: Rating yields no tag, Studio yields the
purely numeric tag "2023". -/
def c2providers : String → Option String :=
  fun module => if module = "Studio" then some "2023" else none

/-- C2, counterexample: tags exist and the rating value IS written, although
the Rating provider produced no tag at all — the numeric tag came from
another provider.  The code only checks `'Rating' in modules` and that SOME
collected tag is numeric. -/
theorem c2_counterexample :
    (update_movie (gatherTags c2modules c2providers) c2modules).rating.isSome
        = true ∧
    gatherTags c2modules c2providers ≠ [] ∧
    ¬ ∃ r, c2providers "Rating" = some r ∧
        r ∈ gatherTags c2modules c2providers ∧ isNumericTag r = true := by
  refine ⟨by decide, by decide, ?_⟩
  rintro ⟨r, hr, -⟩
  have hnone : c2providers "Rating" = none := rfl
  rw [hnone] at hr
  exact Option.noConfusion hr

/-- C2, amended: the rating value is additionally written iff "Rating"
appears in the configured module order AND at least one of the deduplicated
collected tags is purely numeric (dots and digits only); the value written is
the first such tag, whichever provider produced it. -/
theorem c2_rating_amended (modules : List String)
    (providers : String → Option String) :
    (update_movie (gatherTags modules providers) modules).rating =
      (if "Rating" ∈ modules ∧
          (dedupTags (gatherTags modules providers)).any isNumericTag = true
       then (dedupTags (gatherTags modules providers)).find? isNumericTag
       else none) := by
  unfold update_movie
  by_cases h : (dedupTags (gatherTags modules providers)).isEmpty = true
  · have hnil : dedupTags (gatherTags modules providers) = [] :=
      List.isEmpty_iff.mp h
    simp [h, hnil]
  · simp [h]

/-! ### Claim C3: per-item failures in the batch loop -/

/-- A pending movie whose processing raises. -/
def c3alpha : Movie := ⟨some "1", some "Alpha", none, none, none, []⟩

/-- A pending movie whose processing succeeds. -/
def c3beta : Movie := ⟨some "2", some "Beta", none, none, none, []⟩

/-- The per-item outcome: processing Alpha raises "boom", everything else
succeeds. -/
def c3outcome : Movie → Except String Unit :=
  fun m => if m.title = some "Alpha" then .error "boom" else .ok ()

/-- C3: with two pending movies of which the first raises, the live batch
loop of `process_movies` attempts both items, counts both as completed
progress units and finishes the batch — but its log contains only the batch
info line and NO error line for Alpha, because the loop never retrieves the
futures' results; the catching-and-logging variant `process_movies_batch`
(present in the source but never called) would have logged the failure with
the item's title. -/
theorem c3_failure_swallowed :
    (process_movies_loop c3outcome 25 [c3alpha, c3beta]
        (_progress_set_total 2).1).2.2.1 = ["Processed batch 1/1"] ∧
    (process_movies_loop c3outcome 25 [c3alpha, c3beta]
        (_progress_set_total 2).1).1.done = 2 ∧
    (process_movies_loop c3outcome 25 [c3alpha, c3beta]
        (_progress_set_total 2).1).2.2.2 = [.error "boom", .ok ()] ∧
    process_movies_batch c3outcome [c3alpha, c3beta] =
      ["Error processing movie Alpha: boom"] := by
  refine ⟨by decide, by decide, rfl, by decide⟩

/-! ### Claims C8, C9, C10: the task orchestrator -/

theorem dequeAppend_getLast (logs : List String) (entry : String) :
    (dequeAppend logs entry).getLast? = some entry := by
  unfold dequeAppend
  by_cases h : LOG_LIMIT < (logs ++ [entry]).length
  · rw [if_pos h, List.drop_append_of_le_length (by simp [LOG_LIMIT])]
    exact List.getLast?_concat _
  · rw [if_neg h]
    exact List.getLast?_concat _

/-- C8: calling start while a run is already Running fails with the conflict
error and returns the state unchanged — none of the running run's fields
(running flag, progress, counts, exit code, logs, current flag, start time)
is modified. -/
theorem c8_start_conflict (s : RunnerState) (flag now : String)
    (h : s.running = true) :
    TaskRunner.start s flag now =
      (s, some "Another operation is already running.") := by
  simp [TaskRunner.start, h]

/-- A running runner state with arbitrary non-default field values. -/
def c8state : RunnerState :=
  ⟨["[00:00:01] Running: python3 edition-manager.py --all"], 42, (3, 7),
    some "--all", true, none, some "2026-01-01T00:00:00"⟩

/-- C8, witness: starting over a concrete running state yields exactly the
conflict error and that same state. -/
theorem c8_start_conflict_witness :
    TaskRunner.start c8state "--reset" "2026-01-01T00:00:05" =
      (c8state, some "Another operation is already running.") :=
  c8_start_conflict c8state "--reset" "2026-01-01T00:00:05" rfl

/-- C9: when the child exits, `_finish` appends a terminal log line
("Job completed successfully." for exit code 0, otherwise a line naming the
exit code), sets running to false, records the exit code, and forces the
displayed progress to 100 exactly when the exit code is 0 (so a run with
zero pending items, whose progress never advanced past 0, still reports
100); otherwise the progress is left at its last value. -/
theorem c9_finish (s : RunnerState) (flag : String) (ec : Option Int)
    (stamp : String) :
    (TaskRunner._finish s flag ec stamp).running = false ∧
    (TaskRunner._finish s flag ec stamp).exitCode = ec ∧
    (TaskRunner._finish s flag ec stamp).progress =
      (if ec = some 0 then 100 else s.progress) ∧
    (TaskRunner._finish s flag ec stamp).logs.getLast? =
      some ("[" ++ stamp ++ "] " ++
        (if ec = some 0 then "Job completed successfully."
         else "Job finished with exit code " ++ optIntStr ec ++ ".")) := by
  refine ⟨rfl, rfl, rfl, ?_⟩
  simp only [TaskRunner._finish, _append_log]
  exact dequeAppend_getLast _ _

/-- C10: the output reader handles every stdout line totally: the line is
always appended to the log; the stored progress changes only when the line
starts with "PROGRESS " and its percent field parses, in which case the
parsed value is clamped into [0, 100] before being stored — so after any
line the progress is either unchanged or within [0, 100]. -/
theorem c10_handle_output (s : RunnerState) (stamp line : String)
    (parseFloat : String → Option ℚ) (parseInt : String → Option Int) :
    (TaskRunner._handle_output s stamp line parseFloat parseInt).logs.getLast?
        = some ("[" ++ stamp ++ "] " ++ line) ∧
    (TaskRunner._handle_output s stamp line parseFloat parseInt).progress =
      ((if line.startsWith "PROGRESS " = true
          then ((splitWs line)[1]?).bind parseFloat else none).elim
        s.progress (fun x => max 0 (min 100 x))) ∧
    ((TaskRunner._handle_output s stamp line parseFloat parseInt).progress
        = s.progress ∨
      (0 ≤ (TaskRunner._handle_output s stamp line parseFloat parseInt).progress ∧
        (TaskRunner._handle_output s stamp line parseFloat parseInt).progress
          ≤ 100)) := by
  unfold TaskRunner._handle_output
  by_cases hp : line.startsWith "PROGRESS " = true
  · rw [hp]
    cases hv : ((splitWs line)[1]?).bind parseFloat with
    | none => exact ⟨dequeAppend_getLast _ _, rfl, Or.inl rfl⟩
    | some x =>
      exact ⟨dequeAppend_getLast _ _, rfl,
        Or.inr ⟨le_max_left _ _, max_le (by norm_num) (min_le_left _ _)⟩⟩
  · rw [Bool.not_eq_true] at hp
    rw [hp]
    exact ⟨dequeAppend_getLast _ _, rfl, Or.inl rfl⟩

/-! ### Claims C6 and C7: the progress reporter

The reachable-state invariant: the total is at least 1, done never exceeds
it, and the last-emitted sentinel is either the unset value `-1` or the
percent of some earlier done-count (hence between 0 and the current
percent). -/

/-- The last value in the emitted-percent trace so far (`0` right after
`_progress_set_total`, whose `0.0` emission does not set the sentinel). -/
def vhead (s : ProgState) : ℚ := max 0 s.lastEmit

/-- Invariant of reachable progress states. -/
def ProgInv (s : ProgState) : Prop :=
  1 ≤ s.total ∧ s.done ≤ s.total ∧
    (s.lastEmit = -1 ∨
      (0 ≤ s.lastEmit ∧ s.lastEmit ≤ (s.done * 100 : ℚ) / (s.total : ℚ)))

theorem pct_nonneg (d T : ℕ) : (0 : ℚ) ≤ (d * 100 : ℚ) / (T : ℚ) := by
  positivity

theorem pct_le_100 {d T : ℕ} (hd : d ≤ T) (hT : 1 ≤ T) :
    (d * 100 : ℚ) / (T : ℚ) ≤ 100 := by
  have hTpos : (0 : ℚ) < (T : ℚ) := by exact_mod_cast hT
  rw [div_le_iff₀ hTpos]
  have : (d : ℚ) ≤ (T : ℚ) := by exact_mod_cast hd
  nlinarith

theorem pct_mono {d₁ d₂ : ℕ} (T : ℕ) (h : d₁ ≤ d₂) :
    (d₁ * 100 : ℚ) / (T : ℚ) ≤ (d₂ * 100 : ℚ) / (T : ℚ) := by
  rcases Nat.eq_zero_or_pos T with hT | hT
  · simp [hT]
  · have hTpos : (0 : ℚ) < (T : ℚ) := by exact_mod_cast hT
    rw [div_le_div_iff_of_pos_right hTpos]
    have : (d₁ : ℚ) ≤ (d₂ : ℚ) := by exact_mod_cast h
    nlinarith

/-- Everything one step does, under the invariant: the invariant is
preserved, total is unchanged, done does not decrease; either nothing is
emitted and the sentinel is unchanged, or one value is emitted that equals
the new sentinel, lies in `[0, 100]` and is at least the previous trace
value; and a step that lands on `done = total` always emits exactly 100. -/
theorem _progress_step_spec (s : ProgState) (k : Nat) (hs : ProgInv s) :
    ProgInv (_progress_step s k).1 ∧
    (_progress_step s k).1.total = s.total ∧
    s.done ≤ (_progress_step s k).1.done ∧
    (((_progress_step s k).2 = none ∧
        (_progress_step s k).1.lastEmit = s.lastEmit) ∨
      (∃ p, (_progress_step s k).2 = some p ∧
        (_progress_step s k).1.lastEmit = p ∧ vhead s ≤ p ∧ 0 ≤ p ∧ p ≤ 100)) ∧
    ((_progress_step s k).1.done = (_progress_step s k).1.total →
      (_progress_step s k).2 = some 100) := by
  obtain ⟨hT, hD, hL⟩ := hs
  have hTne : (s.total : ℚ) ≠ 0 := by
    have : (0 : ℚ) < (s.total : ℚ) := by exact_mod_cast hT
    exact this.ne'
  set D := min s.total (s.done + k) with hDdef
  have hDle : D ≤ s.total := Nat.min_le_left _ _
  have hDge : s.done ≤ D := Nat.le_min.mpr ⟨hD, Nat.le_add_right _ _⟩
  set pct : ℚ := (D * 100 : ℚ) / (s.total : ℚ) with hpctdef
  have hpct0 : 0 ≤ pct := pct_nonneg D s.total
  have hpct100 : pct ≤ 100 := pct_le_100 hDle hT
  have hclamp : min 100 (max 0 pct) = pct := by
    rw [max_eq_right hpct0, min_eq_right hpct100]
  have hlast100 : s.lastEmit ≤ 100 := by
    rcases hL with h | ⟨_, h⟩
    · rw [h]; norm_num
    · exact h.trans (pct_le_100 hD hT)
  have hold_le : (s.done * 100 : ℚ) / (s.total : ℚ) ≤ pct :=
    pct_mono s.total hDge
  by_cases hE : s.lastEmit < 0 ∨ 100 ≤ pct ∨
      max (1/10) ((100 : ℚ) / (max 1 s.total : ℕ)) ≤ pct - s.lastEmit
  · have hstep : _progress_step s k =
        (⟨s.total, D, pct⟩, some (min 100 (max 0 pct))) := by
      simp only [_progress_step]
      rw [← hDdef, ← hpctdef, if_pos hE, if_pos hE]
    rw [hstep, hclamp]
    have hvh : vhead s ≤ pct := by
      rcases hE with h | h | h
      · unfold vhead
        rw [max_eq_left h.le]
        exact hpct0
      · exact le_trans (max_le (by norm_num) hlast100) h
      · have hδ : (0 : ℚ) < max (1/10) ((100 : ℚ) / (max 1 s.total : ℕ)) :=
          lt_of_lt_of_le (by norm_num) (le_max_left _ _)
        have : s.lastEmit ≤ pct := by linarith
        exact max_le hpct0 this
    refine ⟨⟨hT, hDle, Or.inr ⟨hpct0, le_refl _⟩⟩, rfl, hDge,
      Or.inr ⟨pct, rfl, rfl, hvh, hpct0, hpct100⟩, ?_⟩
    intro hdt
    have hDt : D = s.total := hdt
    have hpct' : pct = 100 := by
      rw [hpctdef, hDt]
      exact mul_div_cancel_left₀ 100 hTne
    rw [hpct']
  · have hstep : _progress_step s k = (⟨s.total, D, s.lastEmit⟩, none) := by
      simp only [_progress_step]
      rw [← hDdef, ← hpctdef, if_neg hE, if_neg hE]
    rw [hstep]
    push_neg at hE
    obtain ⟨hE1, hE2, -⟩ := hE
    have hLE0 : 0 ≤ s.lastEmit := hE1
    refine ⟨⟨hT, hDle, Or.inr ⟨hLE0, ?_⟩⟩, rfl, hDge, Or.inl ⟨rfl, rfl⟩, ?_⟩
    · rcases hL with h | ⟨-, h⟩
      · exfalso
        rw [h] at hLE0
        norm_num at hLE0
      · exact h.trans hold_le
    · intro hdt
      exfalso
      have hDt : D = s.total := hdt
      have hpct' : pct = 100 := by
        rw [hpctdef, hDt]
        exact mul_div_cancel_left₀ 100 hTne
      exact absurd hpct'.ge hE2.not_le

/-- Trace-level facts about a sequence of steps from an invariant state:
invariant and total preserved; prefixing the previous trace value keeps the
emitted percents a non-decreasing chain; all emitted percents lie in
`[0, 100]`; the sentinel afterwards is the last emitted percent (or the
previous sentinel if none was emitted); and if the final state has
`done = total` and at least one step ran, the last emission is 100. -/
theorem stepsEmits_spec (ks : List Nat) :
    ∀ s : ProgState, ProgInv s →
      ProgInv (stepsEmits s ks).1 ∧
      (stepsEmits s ks).1.total = s.total ∧
      List.Chain' (· ≤ ·) (vhead s :: (stepsEmits s ks).2) ∧
      (∀ p ∈ (stepsEmits s ks).2, 0 ≤ p ∧ p ≤ 100) ∧
      (stepsEmits s ks).1.lastEmit = ((stepsEmits s ks).2).getLastD s.lastEmit ∧
      ((stepsEmits s ks).1.done = (stepsEmits s ks).1.total → ks ≠ [] →
        ((stepsEmits s ks).2).getLast? = some 100) := by
  induction ks with
  | nil =>
    intro s hs
    refine ⟨hs, rfl, ?_, by simp [stepsEmits], rfl, fun _ h => absurd rfl h⟩
    simp [stepsEmits, List.chain'_singleton]
  | cons k ks ih =>
    intro s hs
    obtain ⟨hs1, htot1, hdone1, hemit, hfull⟩ := _progress_step_spec s k hs
    rcases hstep : _progress_step s k with ⟨s1, e⟩
    rw [hstep] at hs1 htot1 hdone1 hemit hfull
    obtain ⟨ih1, ihtot, ihchain, ihmem, ihlast, ihfull⟩ := ih s1 hs1
    have hrun : stepsEmits s (k :: ks) =
        ((stepsEmits s1 ks).1, e.toList ++ (stepsEmits s1 ks).2) := by
      simp only [stepsEmits, hstep]
    rw [hrun]
    rcases hemit with ⟨he, hle⟩ | ⟨p, he, hle, hvp, hp0, hp100⟩
    · subst he
      have hle' : s1.lastEmit = s.lastEmit := hle
      have hvh : vhead s1 = vhead s := by unfold vhead; rw [hle']
      rw [hvh] at ihchain
      refine ⟨ih1, ihtot.trans htot1, by simpa using ihchain, by simpa using ihmem,
        ?_, ?_⟩
      · simp only [Option.toList_none, List.nil_append]
        rw [ihlast, hle']
      · intro hdt _
        rcases ks with _ | ⟨k', ks'⟩
        · exact Option.noConfusion (hfull hdt)
        · simpa using ihfull hdt (by simp)
    · subst he
      have hle' : s1.lastEmit = p := hle
      have hvh : vhead s1 = p := by
        unfold vhead
        rw [hle']
        exact max_eq_right hp0
      rw [hvh] at ihchain
      refine ⟨ih1, ihtot.trans htot1, ?_, ?_, ?_, ?_⟩
      · simp only [Option.toList_some, List.cons_append, List.nil_append]
        exact List.chain'_cons.mpr ⟨hvp, ihchain⟩
      · intro q hq
        simp only [Option.toList_some, List.cons_append, List.nil_append,
          List.mem_cons] at hq
        rcases hq with rfl | hq
        · exact ⟨hp0, hp100⟩
        · exact ihmem q hq
      · simp only [Option.toList_some, List.cons_append, List.nil_append,
          List.getLastD_cons]
        rw [ihlast, hle']
      · intro hdt _
        rcases ks with _ | ⟨k', ks'⟩
        · have hp' : p = 100 := Option.some.inj (hfull hdt)
          simp [stepsEmits, hp']
        · have hlast := ihfull hdt (by simp)
          have hne : (stepsEmits s1 (k' :: ks')).2 ≠ [] := by
            intro hnil
            rw [hnil] at hlast
            exact Option.noConfusion hlast
          rw [List.getLast?_append]
          simp [hlast]

/-- C6: within one run (a `_progress_set_total` call followed by any step
calls), the emitted-percent trace begins with an immediate 0% emission, is
non-decreasing, stays within [0, 100], and ends at 100 whenever the final
state has `done = total`. -/
theorem c6_progress_trace (n : Nat) (ks : List Nat) :
    (progressRun n ks).2.head? = some 0 ∧
    List.Chain' (· ≤ ·) (progressRun n ks).2 ∧
    (∀ p ∈ (progressRun n ks).2, 0 ≤ p ∧ p ≤ 100) ∧
    ((progressRun n ks).1.done = (progressRun n ks).1.total →
      (progressRun n ks).2.getLast? = some 100) := by
  have hs0 : ProgInv (_progress_set_total n).1 :=
    ⟨le_max_left 1 n, Nat.zero_le _, Or.inl rfl⟩
  obtain ⟨hinv, htot, hchain, hmem, hlastD, hfull⟩ :=
    stepsEmits_spec ks (_progress_set_total n).1 hs0
  have hvh : vhead (_progress_set_total n).1 = 0 := by
    unfold vhead _progress_set_total
    norm_num
  rw [hvh] at hchain
  have hrun : progressRun n ks =
      ((stepsEmits (_progress_set_total n).1 ks).1,
        0 :: (stepsEmits (_progress_set_total n).1 ks).2) := rfl
  rw [hrun]
  refine ⟨rfl, hchain, ?_, ?_⟩
  · intro p hp
    rcases List.mem_cons.mp hp with rfl | hp
    · exact ⟨le_refl 0, by norm_num⟩
    · exact hmem p hp
  · intro hdt
    rcases ks with _ | ⟨k', ks'⟩
    · exfalso
      have h0 : (0 : ℕ) = max 1 n := hdt
      have h1 : 1 ≤ max 1 n := le_max_left 1 n
      omega
    · have hlast := hfull hdt (by simp)
      have hsplit : (0 : ℚ) :: (stepsEmits (_progress_set_total n).1
          (k' :: ks')).2 = [0] ++ (stepsEmits (_progress_set_total n).1
          (k' :: ks')).2 := rfl
      rw [hsplit, List.getLast?_append, hlast]
      rfl

/-- C6, witness: the run with total 2 and two unit steps finishes with
`done = total`, and the theorem then yields that its trace ends at 100. -/
theorem c6_progress_trace_witness :
    (progressRun 2 [1, 1]).1.done = (progressRun 2 [1, 1]).1.total ∧
    (progressRun 2 [1, 1]).2.getLast? = some 100 :=
  ⟨rfl, (c6_progress_trace 2 [1, 1]).2.2.2 rfl⟩

/-- The percent a step computes: `done*100/total` after the done update. -/
def stepPct (s : ProgState) (k : Nat) : ℚ :=
  (min s.total (s.done + k) * 100 : ℚ) / (s.total : ℚ)

/-- C7: in any reachable state (after `_progress_set_total` and any number of
steps), `_progress_step k` sets `done = min(total, done + k)`, leaves the
total unchanged, and emits a progress line iff no step has emitted since
`_progress_set_total` (the sentinel is unset; the immediate 0% line of
`_progress_set_total` does not set it), or the new percent has reached 100,
or it exceeds the last emitted percent by at least `max(0.1, 100/total)`. -/
theorem c7_step_spec (n : Nat) (ks : List Nat) (k : Nat) :
    (_progress_step (stepsEmits (_progress_set_total n).1 ks).1 k).1.done =
      min (stepsEmits (_progress_set_total n).1 ks).1.total
        ((stepsEmits (_progress_set_total n).1 ks).1.done + k) ∧
    (_progress_step (stepsEmits (_progress_set_total n).1 ks).1 k).1.total =
      (stepsEmits (_progress_set_total n).1 ks).1.total ∧
    ((_progress_step (stepsEmits (_progress_set_total n).1 ks).1 k).2.isSome
        = true ↔
      ((stepsEmits (_progress_set_total n).1 ks).2 = [] ∨
        100 ≤ stepPct (stepsEmits (_progress_set_total n).1 ks).1 k ∨
        ∃ q, ((stepsEmits (_progress_set_total n).1 ks).2).getLast? = some q ∧
          max (1/10)
              ((100 : ℚ) / ((stepsEmits (_progress_set_total n).1 ks).1.total : ℚ))
            ≤ stepPct (stepsEmits (_progress_set_total n).1 ks).1 k - q)) := by
  have hs0 : ProgInv (_progress_set_total n).1 :=
    ⟨le_max_left 1 n, Nat.zero_le _, Or.inl rfl⟩
  obtain ⟨hinv, htot, hchain, hmem, hlastD, hfull⟩ :=
    stepsEmits_spec ks (_progress_set_total n).1 hs0
  set s := (stepsEmits (_progress_set_total n).1 ks).1 with hsdef
  set es := (stepsEmits (_progress_set_total n).1 ks).2 with hesdef
  have hT : 1 ≤ s.total := hinv.1
  have hδeq : ((max 1 s.total : ℕ) : ℚ) = (s.total : ℚ) := by
    rw [Nat.max_eq_right hT]
  have hstep_done : (_progress_step s k).1.done = min s.total (s.done + k) := rfl
  have hstep_tot : (_progress_step s k).1.total = s.total := rfl
  have hE_iff : (_progress_step s k).2.isSome = true ↔
      (s.lastEmit < 0 ∨ 100 ≤ stepPct s k ∨
        max (1/10) ((100 : ℚ) / ((max 1 s.total : ℕ) : ℚ))
          ≤ stepPct s k - s.lastEmit) := by
    simp only [_progress_step, stepPct]
    by_cases hE : s.lastEmit < 0 ∨
        100 ≤ (min s.total (s.done + k) * 100 : ℚ) / (s.total : ℚ) ∨
        max (1/10) ((100 : ℚ) / ((max 1 s.total : ℕ) : ℚ))
          ≤ (min s.total (s.done + k) * 100 : ℚ) / (s.total : ℚ) - s.lastEmit
    · simp [hE]
    · simp [hE]
  refine ⟨hstep_done, hstep_tot, hE_iff.trans ?_⟩
  have hlastD' : s.lastEmit = es.getLastD (-1) := hlastD
  rw [hδeq]
  cases hq : es.getLast? with
  | none =>
    have hes : es = [] := List.getLast?_eq_none_iff.mp hq
    have hlm : s.lastEmit = -1 := by
      rw [hlastD', hes]
      rfl
    constructor
    · intro _
      exact Or.inl hes
    · intro _
      rw [hlm]
      exact Or.inl (by norm_num)
  | some q =>
    have hes : es ≠ [] := by
      intro hnil
      rw [hnil] at hq
      exact Option.noConfusion hq
    have hlm : s.lastEmit = q := by
      rw [hlastD', List.getLastD_eq_getLast?, hq]
      rfl
    have hq0 : 0 ≤ q := (hmem q (List.mem_of_getLast?_eq_some hq)).1
    have hnotneg : ¬ s.lastEmit < 0 := by
      rw [hlm]
      exact not_lt.mpr hq0
    constructor
    · rintro (h | h | h)
      · exact absurd h hnotneg
      · exact Or.inr (Or.inl h)
      · refine Or.inr (Or.inr ⟨q, rfl, ?_⟩)
        rw [← hlm]
        exact h
    · rintro (h | h | ⟨q', hq', h⟩)
      · exact absurd h hes
      · exact Or.inr (Or.inl h)
      · refine Or.inr (Or.inr ?_)
        rw [hlm]
        have hqq : q' = q := (Option.some.inj hq').symm
        rw [← hqq]
        exact h

end PlexEM
